import Mathlib

/-
Verification of the NMEA serial-port logger (nmealog.py) against its
natural-language specification.

The program is shallowly embedded: Python strings become `List Char`
(sequences of code points), Python string slicing and `str.find` are
modelled with explicit index normalisation, `int(s, 16)` is modelled by
`pyIntHex` (ASCII fragment of Python's base-16 literal grammar: optional
surrounding ASCII whitespace, optional sign, optional 0x/0X marker,
hexadecimal digits with single underscores between digits), and the
effectful acquisition loop `portthread`/`readbuf` becomes a pure function
from a per-iteration environment schedule to a trace of observable
effects together with an optional uncaught Python exception.
-/

/-- Index of the first occurrence of character `c`, or `none`; embeds the
search done by Python's `str.find`. -/
def findIdx (c : Char) : List Char → Option Nat
  | [] => none
  | a :: rest => if a = c then some 0 else (findIdx c rest).map (fun i => i + 1)

/-- Python `str.find`: index of the first occurrence, or `-1`. -/
def pyFind (c : Char) (s : List Char) : Int :=
  match findIdx c s with
  | some i => (i : Int)
  | none => -1

/-- Normalise one Python slice endpoint against a string of length `len`:
negative indices count from the end and both ends are clamped to `[0, len]`. -/
def sliceIdx (len : Nat) (i : Int) : Nat :=
  if i < 0 then ((len : Int) + i).toNat else min i.toNat len

/-- Python slice `s[i:j]` with full negative-index and clamping semantics. -/
def pySlice (s : List Char) (i j : Int) : List Char :=
  (s.drop (sliceIdx s.length i)).take (sliceIdx s.length j - sliceIdx s.length i)

/-- The checksum field the code extracts: `sentence[-4:-2]` (nmealog.py line 116). -/
def cksumField (s : List Char) : List Char :=
  pySlice s (-4) (-2)

/-- The payload slice `sentence[sentence.find("$")+1:sentence.find("*")]`
(nmealog.py line 121). -/
def payloadSlice (s : List Char) : List Char :=
  pySlice s (pyFind '$' s + 1) (pyFind '*' s)

/-- `re.sub("(\n|\r\n)", "", x)`: delete every LF, and every CR that is
immediately followed by LF; a lone CR survives (nmealog.py line 121). -/
def stripNl : List Char → List Char
  | [] => []
  | [c] => if c = '\n' then [] else [c]
  | c :: c2 :: rest =>
    if c = '\n' then stripNl (c2 :: rest)
    else if c = '\r' ∧ c2 = '\n' then stripNl rest
    else c :: stripNl (c2 :: rest)

/-- The running exclusive-or of the code-point values, seeded at zero
(nmealog.py lines 124-133). -/
def xorFold (l : List Char) : Nat :=
  l.foldl (fun a c => a ^^^ c.toNat) 0

/-- ASCII whitespace accepted around a Python integer literal. -/
def isPySpace (c : Char) : Bool :=
  c.toNat == 32 || c.toNat == 9 || c.toNat == 10 || c.toNat == 11 ||
    c.toNat == 12 || c.toNat == 13

/-- Strip leading and trailing whitespace, as `int` does before parsing. -/
def stripSpaces (s : List Char) : List Char :=
  ((s.dropWhile isPySpace).reverse.dropWhile isPySpace).reverse

/-- Value of one ASCII hexadecimal digit, if any. -/
def hexVal (c : Char) : Option Nat :=
  if 48 ≤ c.toNat ∧ c.toNat ≤ 57 then some (c.toNat - 48)
  else if 97 ≤ c.toNat ∧ c.toNat ≤ 102 then some (c.toNat - 87)
  else if 65 ≤ c.toNat ∧ c.toNat ≤ 70 then some (c.toNat - 55)
  else none

/-- Continue a hexadecimal digit group: a single underscore is allowed
only between two digits. -/
def parseHexCore (acc : Nat) : List Char → Option Nat
  | [] => some acc
  | [c] =>
    match hexVal c with
    | some v => some (16 * acc + v)
    | none => none
  | c :: c2 :: rest =>
    if c = '_' then
      match hexVal c2 with
      | some v => parseHexCore (16 * acc + v) rest
      | none => none
    else
      match hexVal c with
      | some v => parseHexCore (16 * acc + v) (c2 :: rest)
      | none => none

/-- A non-empty hexadecimal digit group starting with a digit. -/
def parseHexGroup : List Char → Option Nat
  | [] => none
  | c :: rest =>
    match hexVal c with
    | some v => parseHexCore v rest
    | none => none

/-- Digits after a `0x` marker; Python permits one underscore right after it. -/
def parseHexTail : List Char → Option Nat
  | '_' :: r => parseHexGroup r
  | r => parseHexGroup r

/-- Body of a base-16 integer literal after sign removal: an optional
`0x`/`0X` marker followed by a digit group. -/
def parseHexBody (t : List Char) : Option Nat :=
  match t with
  | d0 :: d1 :: r =>
    if d0 = '0' ∧ (d1 = 'x' ∨ d1 = 'X') then parseHexTail r else parseHexGroup t
  | _ => parseHexGroup t

/-- Python `int(s, 16)` on the ASCII fragment: `some` the value, or `none`
when `int` would raise `ValueError` (nmealog.py line 138). -/
def pyIntHex (s : List Char) : Option Int :=
  match stripSpaces s with
  | c :: r =>
    if c = '+' then (parseHexBody r).map (fun n => (n : Int))
    else if c = '-' then (parseHexBody r).map (fun n => -(n : Int))
    else (parseHexBody (c :: r)).map (fun n => (n : Int))
  | [] => (parseHexBody []).map (fun n => (n : Int))

/-- `chksum_nmea` (nmealog.py lines 110-143): extract `sentence[-4:-2]`,
xor-fold the newline-stripped text between the first `$` and the first `*`,
and compare against the parsed checksum; a `ValueError` from `int` is
caught and yields `False`.  `hex(a) == hex(b)` on integers is integer
equality, since `hex` is injective. -/
def chksum_nmea (s : List Char) : Bool :=
  match pyIntHex (cksumField s) with
  | none => false
  | some v => ((xorFold (stripNl (payloadSlice s)) : Int) == v)

/-- A calendar date, the process-local `datetime.date`. -/
structure Date where
  y : Nat
  m : Nat
  d : Nat
deriving DecidableEq

/-- Lexicographic encoding of a calendar date; for valid dates
`(b - a).days > 0` in Python is exactly `a.key < b.key`. -/
def Date.key (a : Date) : Nat :=
  a.y * 10000 + a.m * 100 + a.d

/-- The day-rollover computation at the top of `readbuf` (nmealog.py
lines 85-87): the local variable `lastday` is reassigned to `Today` when
the current date is strictly later, else kept. -/
def readbufDay (lastday today : Date) : Date :=
  if Date.key lastday < Date.key today then today else lastday

/-- Decimal digits of `n`, zero-padded on the left to width `w`. -/
def padDigits (w n : Nat) : List Char :=
  List.replicate (w - (Nat.toDigits 10 n).length) '0' ++ Nat.toDigits 10 n

/-- `strftime('%Y-%m-%d')`. -/
def fmtDate (dt : Date) : List Char :=
  padDigits 4 dt.y ++ '-' :: (padDigits 2 dt.m ++ '-' :: padDigits 2 dt.d)

/-- The file-name expression of nmealog.py line 104:
`'\x7b\x7d-\x7b\x7d\x7b\x7d'.format(stem, lastday.strftime('%Y-%m-%d'), ext)`. -/
def logname (stem ext : List Char) (day : Date) : List Char :=
  stem ++ '-' :: (fmtDate day ++ ext)

/-- The read loop of `readbuf` (nmealog.py lines 89-94): up to `nline`
line reads; each yields decoded text or a `UnicodeDecodeError` (modelled
as `Except.error ()`), which propagates immediately; a read past the
supplied schedule is a timeout returning the empty line.  Lines passing
`chksum_nmea` are appended in order. -/
def readLines : Nat → List (Except Unit (List Char)) → Except Unit (List (List Char))
  | 0, _ => Except.ok []
  | n + 1, [] =>
    match readLines n [] with
    | Except.error e => Except.error e
    | Except.ok rest => Except.ok (if chksum_nmea [] then [] :: rest else rest)
  | n + 1, l :: ls =>
    match l with
    | Except.error e => Except.error e
    | Except.ok s =>
      match readLines n ls with
      | Except.error e => Except.error e
      | Except.ok rest => Except.ok (if chksum_nmea s then s :: rest else rest)

deriving instance DecidableEq for Except

/-- Uncaught Python exceptions the core can raise. -/
inductive PyErr where
  | typeError
  | decodeError
deriving DecidableEq

/-- Observable effects of the worker. -/
inductive Eff where
  | printNum (n : Nat)
  | printStr (s : List Char)
  | waitHalf
  | waitPeriod (t : Rat)
  | flushInput
  | fileAppend (path content : List Char)
  | closePort
deriving DecidableEq

/-- One call of `readbuf` (nmealog.py lines 84-105): compute the rollover
day; read and validate up to `nline` lines (a decode fault propagates);
print the joined record when verbose; then, when a log file is configured,
line 102 evaluates `expanduser(splitext(logfn))`, which applies
`os.path.expanduser` to the pair returned by `splitext` and raises
`TypeError` before any file is opened — lines 104-105 are unreachable;
with no log file the record is printed when not already printed.
The result carries the effect trace, the exception if one escaped, and
the value of the local `lastday` at exit (discarded by the caller). -/
def readbufM (lastday : Date) (logfn : Option (List Char)) (nline : Nat)
    (verbose : Bool) (today : Date) (lines : List (Except Unit (List Char))) :
    List Eff × Option PyErr × Date :=
  match readLines nline lines with
  | Except.error _ => ([], some PyErr.decodeError, readbufDay lastday today)
  | Except.ok txt =>
    match logfn with
    | some _ =>
      ((if verbose then [Eff.printStr txt.flatten] else []), some PyErr.typeError,
        readbufDay lastday today)
    | none =>
      ((if verbose then [Eff.printStr txt.flatten] else []) ++
          (if verbose then [] else [Eff.printStr txt.flatten]), none,
        readbufDay lastday today)

/-- What the worker observes in one iteration of its loop: the stop flag
at the loop head, the transport's available byte count, the wall-clock
date, and the pending line reads. -/
structure CycleEnv where
  stopSet : Bool
  inWaiting : Nat
  today : Date
  lines : List (Except Unit (List Char))
deriving DecidableEq

/-- Result of a worker run: its effect trace, the exception that killed
it (if any), and, per executed `readbuf` call, the pair of the observed
date and the rollover day that call computed (verification ghost). -/
structure RunOut where
  trace : List Eff
  err : Option PyErr
  stamps : List (Date × Date)
deriving DecidableEq

/-- `portthread` (nmealog.py lines 68-82) over a finite schedule of
iteration environments: while the stop flag is unset, poll `inWaiting`;
below the threshold print it when verbose and wait 0.5 s; otherwise call
`readbuf` (whose local day never flows back: the recursion passes
`lastday` unchanged), then `stop.wait(period - 2.5)` and only afterwards
flush the input buffer.  An exception from `readbuf` propagates, ending
the thread; observing the stop flag ends the loop with no further
action — in particular the serial port is never closed here. -/
def portthreadRun (lastday : Date) (logfn : Option (List Char)) (nline : Nat)
    (verbose : Bool) (bytesWait : Nat) (period : Rat) :
    List CycleEnv → RunOut
  | [] => ⟨[], none, []⟩
  | e :: rest =>
    if e.stopSet then ⟨[], none, []⟩
    else if e.inWaiting < bytesWait then
      let out := portthreadRun lastday logfn nline verbose bytesWait period rest
      ⟨(if verbose then [Eff.printNum e.inWaiting] else []) ++ Eff.waitHalf :: out.trace,
        out.err, out.stamps⟩
    else
      match readbufM lastday logfn nline verbose e.today e.lines with
      | (effs, some er, day) => ⟨effs, some er, [(e.today, day)]⟩
      | (effs, none, day) =>
        let out := portthreadRun lastday logfn nline verbose bytesWait period rest
        ⟨effs ++ Eff.waitPeriod (period - 5 / 2) :: Eff.flushInput :: out.trace,
          out.err, (e.today, day) :: out.stamps⟩

/-- Concrete fixtures used by witnesses and counterexamples. -/
def d0 : Date := ⟨2024, 1, 1⟩

/-- A log-file argument, `gps.txt`. -/
def gpsLog : List Char := ['g', 'p', 's', '.', 't', 'x', 't']

/-- A well-formed NMEA-style frame: xor of `A` is 0x41. -/
def frameA : List Char := ['$', 'A', '*', '4', '1', '\r', '\n']

/-- The same frame with a corrupted checksum byte. -/
def frameBadA : List Char := ['$', 'A', '*', '4', '2', '\r', '\n']

/-- A second valid frame: xor of `B` is 0x42. -/
def frameB : List Char := ['$', 'B', '*', '4', '2', '\r', '\n']

/-- A third valid frame: xor of `C` is 0x43. -/
def frameC : List Char := ['$', 'C', '*', '4', '3', '\r', '\n']

/-- Taking exactly the length of the left part of an append returns it. -/
theorem take_len_append {α : Type} (l r : List α) : (l ++ r).take l.length = l := by
  induction l with
  | nil => simp
  | cons a l ih => simp [ih]

/-- Dropping exactly the length of the left part of an append removes it. -/
theorem drop_len_append {α : Type} (l r : List α) : (l ++ r).drop l.length = r := by
  induction l with
  | nil => simp
  | cons a l ih => simp [ih]

/-- `findIdx` locates the first occurrence after an occurrence-free part. -/
theorem findIdx_elem_append (c : Char) (l r : List Char) (h : c ∉ l) :
    findIdx c (l ++ c :: r) = some l.length := by
  induction l with
  | nil => simp [findIdx]
  | cons a l ih =>
    simp only [List.mem_cons, not_or] at h
    have hne : ¬ (a = c) := fun e => h.1 e.symm
    simp [findIdx, hne, ih h.2]

/-- Newline stripping is the identity on LF-free text. -/
theorem stripNl_id (l : List Char) (h : '\n' ∉ l) : stripNl l = l := by
  induction l with
  | nil => rfl
  | cons a l ih =>
    simp only [List.mem_cons, not_or] at h
    have ha : ¬ (a = '\n') := fun e => h.1 e.symm
    cases l with
    | nil => simp [stripNl, ha]
    | cons b l2 =>
      have hb : '\n' ∉ b :: l2 := h.2
      have hb1 : ¬ (a = '\r' ∧ b = '\n') := by
        rintro ⟨-, e⟩
        exact hb (e ▸ List.mem_cons_self b l2)
      simp [stripNl, ha, hb1, ih h.2]

/-- Hexadecimal digits are not whitespace. -/
theorem hexVal_not_space (c : Char) (v : Nat) (h : hexVal c = some v) :
    isPySpace c = false := by
  unfold hexVal at h
  unfold isPySpace
  split at h
  · rename_i hc
    simp only [Bool.or_eq_false_iff, beq_eq_false_iff_ne, ne_eq]
    omega
  · split at h
    · rename_i hc
      simp only [Bool.or_eq_false_iff, beq_eq_false_iff_ne, ne_eq]
      omega
    · split at h
      · rename_i hc
        simp only [Bool.or_eq_false_iff, beq_eq_false_iff_ne, ne_eq]
        omega
      · exact absurd h (by simp)

/-- A character with a hexadecimal value is none of the given characters. -/
theorem hexVal_ne (c : Char) (v : Nat) (h : hexVal c = some v)
    (d : Char) (hd : hexVal d = none) : ¬ (c = d) := by
  intro e
  rw [e, hd] at h
  exact Option.noConfusion h

/-- `int(s, 16)` on a two-hex-digit string is its value. -/
theorem pyIntHex_pair (c1 c2 : Char) (v1 v2 : Nat)
    (h1 : hexVal c1 = some v1) (h2 : hexVal c2 = some v2) :
    pyIntHex [c1, c2] = some ((16 * v1 + v2 : Nat) : Int) := by
  have s1 : isPySpace c1 = false := hexVal_not_space c1 v1 h1
  have s2 : isPySpace c2 = false := hexVal_not_space c2 v2 h2
  have hstrip : stripSpaces [c1, c2] = [c1, c2] := by
    simp [stripSpaces, List.dropWhile_cons, s1, s2]
  have n1 : ¬ (c1 = '+') := hexVal_ne c1 v1 h1 '+' (by decide)
  have n2 : ¬ (c1 = '-') := hexVal_ne c1 v1 h1 '-' (by decide)
  have nx : ¬ (c2 = 'x') := hexVal_ne c2 v2 h2 'x' (by decide)
  have nX : ¬ (c2 = 'X') := hexVal_ne c2 v2 h2 'X' (by decide)
  have nu : ¬ (c2 = '_') := hexVal_ne c2 v2 h2 '_' (by decide)
  have hbody : parseHexBody [c1, c2] = some (16 * v1 + v2) := by
    have e1 : parseHexBody [c1, c2] =
        if c1 = '0' ∧ (c2 = 'x' ∨ c2 = 'X') then parseHexTail []
        else parseHexGroup [c1, c2] := rfl
    rw [e1, if_neg (by
      rintro ⟨-, e | e⟩
      · exact nx e
      · exact nX e)]
    have e2 : parseHexGroup [c1, c2] =
        match hexVal c1 with
        | some v => parseHexCore v [c2]
        | none => none := rfl
    rw [e2, h1]
    show parseHexCore v1 [c2] = some (16 * v1 + v2)
    have e3 : parseHexCore v1 [c2] =
        match hexVal c2 with
        | some v => some (16 * v1 + v)
        | none => none := rfl
    rw [e3, h2]
  unfold pyIntHex
  rw [hstrip]
  show (if c1 = '+' then (parseHexBody [c2]).map (fun n => (n : Int))
    else if c1 = '-' then (parseHexBody [c2]).map (fun n => -(n : Int))
    else (parseHexBody [c1, c2]).map (fun n => (n : Int))) =
      some ((16 * v1 + v2 : Nat) : Int)
  rw [if_neg n1, if_neg n2, hbody]
  rfl

/-- `int(s, 16)` fails on any two-character string whose second character
is the `*` marker. -/
theorem pyIntHex_snd_star (a : Char) : pyIntHex [a, '*'] = none := by
  have hs : isPySpace '*' = false := by decide
  have hstarbody : parseHexBody ['*'] = none := by decide
  by_cases ha : isPySpace a = true
  · have hstrip : stripSpaces [a, '*'] = ['*'] := by
      simp [stripSpaces, List.dropWhile_cons, ha, hs]
    unfold pyIntHex
    rw [hstrip]
    decide
  · have ha2 : isPySpace a = false := by
      cases h : isPySpace a
      · rfl
      · exact absurd h ha
    have hstrip : stripSpaces [a, '*'] = [a, '*'] := by
      simp [stripSpaces, List.dropWhile_cons, ha2, hs]
    unfold pyIntHex
    rw [hstrip]
    show (if a = '+' then (parseHexBody ['*']).map (fun n => (n : Int))
      else if a = '-' then (parseHexBody ['*']).map (fun n => -(n : Int))
      else (parseHexBody [a, '*']).map (fun n => (n : Int))) = none
    by_cases hp : a = '+'
    · rw [if_pos hp, hstarbody]
      rfl
    · by_cases hm : a = '-'
      · rw [if_neg hp, if_pos hm, hstarbody]
        rfl
      · rw [if_neg hp, if_neg hm]
        have hbody : parseHexBody [a, '*'] = none := by
          have e1 : parseHexBody [a, '*'] =
              if a = '0' ∧ ('*' = 'x' ∨ '*' = 'X') then parseHexTail []
              else parseHexGroup [a, '*'] := rfl
          rw [e1, if_neg (by rintro ⟨-, e | e⟩ <;> exact absurd e (by decide))]
          have e2 : parseHexGroup [a, '*'] =
              match hexVal a with
              | some v => parseHexCore v ['*']
              | none => none := rfl
          rw [e2]
          cases hv : hexVal a with
          | none => rfl
          | some v =>
            show parseHexCore v ['*'] = none
            have e3 : parseHexCore v ['*'] =
                match hexVal '*' with
                | some w => some (16 * v + w)
                | none => none := rfl
            rw [e3, show hexVal '*' = none from by decide]
        rw [hbody]
        rfl

/-- On a frame whose first `$` and first `*` bracket the payload, the
payload slice of `chksum_nmea` is exactly the payload. -/
theorem payloadSlice_frame (pre payload rest : List Char)
    (h1 : '$' ∉ pre) (h2 : '*' ∉ pre) (h3 : '*' ∉ payload) :
    payloadSlice (pre ++ '$' :: (payload ++ '*' :: rest)) = payload := by
  have e1 : pre ++ '$' :: (payload ++ '*' :: rest) =
      (pre ++ '$' :: payload) ++ '*' :: rest := by simp
  have f1 : findIdx '$' (pre ++ '$' :: (payload ++ '*' :: rest)) = some pre.length :=
    findIdx_elem_append '$' pre (payload ++ '*' :: rest) h1
  have h4 : '*' ∉ pre ++ '$' :: payload := by
    simp only [List.mem_append, List.mem_cons, not_or]
    exact ⟨h2, by decide, h3⟩
  have f2 : findIdx '*' (pre ++ '$' :: (payload ++ '*' :: rest)) =
      some (pre ++ '$' :: payload).length := by
    rw [e1]
    exact findIdx_elem_append '*' (pre ++ '$' :: payload) rest h4
  have hlen : (pre ++ '$' :: (payload ++ '*' :: rest)).length =
      pre.length + payload.length + rest.length + 2 := by
    simp
    omega
  unfold payloadSlice pyFind
  rw [f1, f2]
  unfold pySlice sliceIdx
  rw [hlen]
  have hl2 : (pre ++ '$' :: payload).length = pre.length + payload.length + 1 := by
    simp
    omega
  rw [hl2]
  have ia : (if ((pre.length : Int) + 1 < 0) then
      (((pre.length + payload.length + rest.length + 2 : Nat) : Int) +
        ((pre.length : Int) + 1)).toNat
      else min ((pre.length : Int) + 1).toNat (pre.length + payload.length + rest.length + 2)) =
      pre.length + 1 := by
    rw [if_neg (by omega)]
    omega
  have ib : (if (((pre.length + payload.length + 1 : Nat) : Int) < 0) then
      (((pre.length + payload.length + rest.length + 2 : Nat) : Int) +
        ((pre.length + payload.length + 1 : Nat) : Int)).toNat
      else min ((pre.length + payload.length + 1 : Nat) : Int).toNat
        (pre.length + payload.length + rest.length + 2)) =
      pre.length + payload.length + 1 := by
    rw [if_neg (by omega)]
    omega
  rw [ia, ib]
  have e2 : pre ++ '$' :: (payload ++ '*' :: rest) =
      (pre ++ ['$']) ++ (payload ++ '*' :: rest) := by simp
  have hl3 : pre.length + 1 = (pre ++ ['$']).length := by simp
  rw [e2, hl3, drop_len_append]
  have ht : pre.length + payload.length + 1 - ((pre ++ ['$']).length) = payload.length := by
    simp
  rw [ht]
  exact take_len_append payload ('*' :: rest)

/-- The checksum field of a string with a four-character tail is the
first two characters of that tail. -/
theorem cksumField_append4 (A t : List Char) (h : t.length = 4) :
    cksumField (A ++ t) = t.take 2 := by
  unfold cksumField pySlice sliceIdx
  have hl : (A ++ t).length = A.length + 4 := by simp [h]
  rw [hl]
  have ia : (if ((-4 : Int) < 0) then (((A.length + 4 : Nat) : Int) + (-4)).toNat
      else min (-4 : Int).toNat (A.length + 4)) = A.length := by
    rw [if_pos (by omega)]
    omega
  have ib : (if ((-2 : Int) < 0) then (((A.length + 4 : Nat) : Int) + (-2)).toNat
      else min (-2 : Int).toNat (A.length + 4)) = A.length + 2 := by
    rw [if_pos (by omega)]
    omega
  rw [ia, ib, drop_len_append]
  have : A.length + 2 - A.length = 2 := by omega
  rw [this]

/-- C2 (counterexample): the claim as stated is false.  The string
`$A*41` followed by a single LF matches the frame grammar
(empty pre part, payload `A`, checksum `41`, one-character tail), and the
checksum value 0x41 equals the xor fold of the payload, yet `chksum_nmea`
returns false, because the compared field `sentence[-4:-2]` is `*4`, not
the checksum digits. -/
theorem c2_checksum_cex :
    chksum_nmea ['$', 'A', '*', '4', '1', '\n'] = false ∧
    xorFold ['A'] = 65 ∧ pyIntHex ['4', '1'] = some 65 := by decide

/-- C2 (amended): for frames whose leading part contains neither marker,
whose payload contains no `*` and no LF, whose checksum is two ASCII
hexadecimal digits, and whose tail after the checksum has exactly two
characters, `chksum_nmea` returns true iff the checksum value equals the
xor fold of the payload. -/
theorem c2_checksum_frame (pre payload suf : List Char) (c1 c2 : Char) (v1 v2 : Nat)
    (h1 : '$' ∉ pre) (h2 : '*' ∉ pre) (h3 : '*' ∉ payload) (h4 : '\n' ∉ payload)
    (h5 : hexVal c1 = some v1) (h6 : hexVal c2 = some v2) (h7 : suf.length = 2) :
    chksum_nmea (pre ++ '$' :: (payload ++ '*' :: c1 :: c2 :: suf)) = true ↔
      xorFold payload = 16 * v1 + v2 := by
  have hp : payloadSlice (pre ++ '$' :: (payload ++ '*' :: c1 :: c2 :: suf)) = payload :=
    payloadSlice_frame pre payload (c1 :: c2 :: suf) h1 h2 h3
  have hc : cksumField (pre ++ '$' :: (payload ++ '*' :: c1 :: c2 :: suf)) = [c1, c2] := by
    have e : pre ++ '$' :: (payload ++ '*' :: c1 :: c2 :: suf) =
        (pre ++ '$' :: (payload ++ ['*'])) ++ (c1 :: c2 :: suf) := by simp
    rw [e, cksumField_append4 (pre ++ '$' :: (payload ++ ['*'])) (c1 :: c2 :: suf)
      (by simp [h7])]
    rfl
  have hi : pyIntHex [c1, c2] = some ((16 * v1 + v2 : Nat) : Int) :=
    pyIntHex_pair c1 c2 v1 v2 h5 h6
  unfold chksum_nmea
  rw [hc, hi]
  show ((xorFold (stripNl (payloadSlice (pre ++ '$' :: (payload ++ '*' :: c1 :: c2 :: suf)))) :
      Int) == ((16 * v1 + v2 : Nat) : Int)) = true ↔ xorFold payload = 16 * v1 + v2
  rw [hp, stripNl_id payload h4, beq_iff_eq]
  exact Nat.cast_inj

/-- C2 (witness): a concrete valid frame with CR LF tail validates. -/
theorem c2_checksum_frame_witness :
    chksum_nmea ['$', 'A', '*', '4', '1', '\r', '\n'] = true :=
  (c2_checksum_frame [] ['A'] ['\r', '\n'] '4' '1' 4 1 (by decide) (by decide) (by decide)
    (by decide) (by decide) (by decide) (by decide)).mpr (by decide)

/-- C3 (counterexample): the claim as stated is false.  The string
`a00aa` contains neither `$` nor `*` and is shorter than any complete
frame, yet `chksum_nmea` returns true: with both markers missing the
payload slice degenerates to `a00a` (xor 0) and the field `00` parses
to 0. -/
theorem c3_checksum_total_cex :
    chksum_nmea ['a', '0', '0', 'a', 'a'] = true ∧
    List.contains ['a', '0', '0', 'a', 'a'] '$' = false ∧
    List.contains ['a', '0', '0', 'a', 'a'] '*' = false ∧
    List.length ['a', '0', '0', 'a', 'a'] = 5 := by decide

/-- C3 (amended): `chksum_nmea` is a total function on all strings (the
`ValueError` of `int` is caught, so no fault escapes), and it returns
false whenever the trailing field `sentence[-4:-2]` fails to parse as a
base-16 integer — in particular on every string of length at most two.
Missing markers or a short-but-nonempty frame do not by themselves force
a false result. -/
theorem c3_checksum_total :
    (∀ s : List Char, pyIntHex (cksumField s) = none → chksum_nmea s = false) ∧
    (∀ s : List Char, s.length ≤ 2 → chksum_nmea s = false) := by
  have part1 : ∀ s : List Char, pyIntHex (cksumField s) = none → chksum_nmea s = false := by
    intro s h
    unfold chksum_nmea
    rw [h]
  refine ⟨part1, fun s hlen => part1 s ?_⟩
  have hfield : cksumField s = [] := by
    unfold cksumField pySlice sliceIdx
    rw [if_pos (show (-4 : Int) < 0 by decide), if_pos (show (-2 : Int) < 0 by decide)]
    have ha : ((s.length : Int) + (-4)).toNat = 0 := by omega
    have hb : ((s.length : Int) + (-2)).toNat = 0 := by omega
    rw [ha, hb]
    simp
  rw [hfield]
  decide

/-- C3 (witness): the empty string has an unparsable checksum field and
is rejected. -/
theorem c3_checksum_total_witness :
    pyIntHex (cksumField []) = none ∧ chksum_nmea [] = false :=
  ⟨by decide, c3_checksum_total.1 [] (by decide)⟩

/-- C9 (counterexample): the claim that a frame validates only when
exactly two characters follow the two checksum digits is false: in
`$A*141vw` the hexadecimal checksum digits after `*` are `14`, followed
by the three characters `1vw`, yet the line validates, because the
compared field at positions length-4 and length-3 happens to read `41`,
the xor fold of the payload `A`. -/
theorem c9_checksum_position_cex :
    chksum_nmea ['$', 'A', '*', '1', '4', '1', 'v', 'w'] = true ∧
    hexVal '1' = some 1 ∧ hexVal '4' = some 4 := by decide

/-- C9 (amended): `chksum_nmea` compares against the two characters at
positions length-4 and length-3, not the two characters after `*`:
(a) whenever it returns true, the field `sentence[-4:-2]` parses as a
base-16 integer equal to the xor fold of the stripped payload slice;
(b) a line that ends directly in its two checksum digits never validates
(the compared field then contains the `*` marker and fails to parse);
(c) when exactly two characters follow the checksum digits, the compared
field is exactly those digits. -/
theorem c9_checksum_position :
    (∀ s : List Char, chksum_nmea s = true →
      pyIntHex (cksumField s) = some ((xorFold (stripNl (payloadSlice s)) : Int))) ∧
    (∀ pre payload : List Char, ∀ c1 c2 : Char,
      chksum_nmea (pre ++ '$' :: (payload ++ '*' :: [c1, c2])) = false) ∧
    (∀ pre payload suf : List Char, ∀ c1 c2 : Char, suf.length = 2 →
      cksumField (pre ++ '$' :: (payload ++ '*' :: c1 :: c2 :: suf)) = [c1, c2]) := by
  refine ⟨?_, ?_, ?_⟩
  · intro s h
    unfold chksum_nmea at h
    cases hp : pyIntHex (cksumField s) with
    | none =>
      rw [hp] at h
      exact Bool.noConfusion h
    | some v =>
      rw [hp] at h
      have h2 : ((xorFold (stripNl (payloadSlice s)) : Int) == v) = true := h
      exact congrArg some (eq_of_beq h2).symm
  · intro pre payload c1 c2
    have e1 : pre ++ '$' :: (payload ++ '*' :: [c1, c2]) =
        (pre ++ '$' :: payload) ++ ['*', c1, c2] := by simp
    rcases List.eq_nil_or_concat (pre ++ '$' :: payload) with h | ⟨A, a, hA⟩
    · exact absurd h (by simp)
    · have e2 : pre ++ '$' :: (payload ++ '*' :: [c1, c2]) =
          A ++ (a :: '*' :: c1 :: c2 :: []) := by
        rw [e1, hA]
        simp
      have hfield : cksumField (pre ++ '$' :: (payload ++ '*' :: [c1, c2])) = [a, '*'] := by
        rw [e2, cksumField_append4 A (a :: '*' :: c1 :: c2 :: []) (by simp)]
        rfl
      unfold chksum_nmea
      rw [hfield, pyIntHex_snd_star a]
  · intro pre payload suf c1 c2 h7
    have e : pre ++ '$' :: (payload ++ '*' :: c1 :: c2 :: suf) =
        (pre ++ '$' :: (payload ++ ['*'])) ++ (c1 :: c2 :: suf) := by simp
    rw [e, cksumField_append4 (pre ++ '$' :: (payload ++ ['*'])) (c1 :: c2 :: suf)
      (by simp [h7])]
    rfl

/-- C9 (witness): on a concrete validating frame the compared field
parses to the payload fold. -/
theorem c9_checksum_position_witness :
    pyIntHex (cksumField ['$', 'A', '*', '4', '1', '\r', '\n']) =
      some ((xorFold (stripNl (payloadSlice ['$', 'A', '*', '4', '1', '\r', '\n'])) : Int)) :=
  c9_checksum_position.1 ['$', 'A', '*', '4', '1', '\r', '\n'] (by decide)

/-- Reading from an exhausted schedule yields an empty record. -/
theorem readLines_nil_ok (n : Nat) : readLines n [] = Except.ok [] := by
  induction n with
  | zero => rfl
  | succ m ih => simp [readLines, ih, show chksum_nmea [] = false from by decide]

/-- The record of a drain cycle whose reads all decode is the checksum
filter of the first `n` lines. -/
theorem readLines_ok_eq (n : Nat) (ls : List (List Char)) :
    readLines n (ls.map Except.ok) = Except.ok ((ls.take n).filter chksum_nmea) := by
  induction n generalizing ls with
  | zero => simp [readLines]
  | succ m ih =>
    cases ls with
    | nil => simp [readLines_nil_ok]
    | cons a tl =>
      simp only [List.map_cons, readLines, ih tl]
      by_cases hx : chksum_nmea a
      · simp [hx, List.filter_cons]
      · simp [hx, List.filter_cons]

/-- C4 (counterexample): the claim that a decode fault is treated like a
checksum mismatch is false.  With the first of four reads returning
undecodable bytes and three valid frames after it, the drain cycle does
not produce the three valid lines: the fault propagates and aborts the
cycle, while the same cycle without the bad read returns all four
frames. -/
theorem c4_decode_cex :
    chksum_nmea frameA = true ∧
    readLines 4 [Except.error (), Except.ok frameA, Except.ok frameA, Except.ok frameA] =
      Except.error () ∧
    readLines 4 [Except.ok frameA, Except.ok frameA, Except.ok frameA, Except.ok frameA] =
      Except.ok [frameA, frameA, frameA, frameA] := by decide

/-- C4 (amended): `hs.readline().decode('utf-8')` is wrapped in no
handler, so a decode fault inside the first `n` reads is not discarded:
it propagates out of the read loop (dropping the lines already read),
aborting the drain cycle — and, through `readbuf`, killing the worker. -/
theorem c4_decode_error_propagates (good : List (List Char))
    (rest : List (Except Unit (List Char))) (n : Nat) (h : good.length < n) :
    readLines n (good.map Except.ok ++ Except.error () :: rest) = Except.error () := by
  induction good generalizing n with
  | nil =>
    cases n with
    | zero => omega
    | succ m => rfl
  | cons a tl ih =>
    cases n with
    | zero => omega
    | succ m =>
      have h2 : tl.length < m := by
        simp only [List.length_cons] at h
        omega
      simp only [List.map_cons, List.cons_append, readLines, List.append_eq]
      rw [ih m h2]

/-- C4 (witness): one valid frame followed by an undecodable read aborts
the cycle. -/
theorem c4_decode_error_propagates_witness :
    readLines 4 ([frameA].map Except.ok ++ Except.error () :: []) = Except.error () :=
  c4_decode_error_propagates [frameA] [] 4 (by decide)

/-- C8 (confirmed): a drain cycle whose reads all decode yields a record
whose every line passed `chksum_nmea`, whose length is at most `n`, and
which is an order-preserving sublist of the lines read. -/
theorem c8_record_invariant (n : Nat) (ls r : List (List Char))
    (h : readLines n (ls.map Except.ok) = Except.ok r) :
    (∀ l ∈ r, chksum_nmea l = true) ∧ r.length ≤ n ∧ r.Sublist ls := by
  rw [readLines_ok_eq] at h
  have hr : r = (ls.take n).filter chksum_nmea := by
    injection h with h2
    exact h2.symm
  subst hr
  refine ⟨?_, ?_, ?_⟩
  · intro l hl
    exact (List.mem_filter.mp hl).2
  · calc ((ls.take n).filter chksum_nmea).length
        ≤ (ls.take n).length := List.length_filter_le _ _
      _ ≤ n := by
        rw [List.length_take]
        omega
  · exact (List.filter_sublist (ls.take n)).trans (List.take_sublist n ls)

/-- C8 (witness): the spec's end-to-end cycle — four lines, the second
with a corrupted checksum byte — yields exactly the three valid lines in
their original relative order. -/
theorem c8_record_invariant_witness :
    readLines 4 ([frameA, frameBadA, frameB, frameC].map Except.ok) =
      Except.ok [frameA, frameB, frameC] ∧
    chksum_nmea frameA = true ∧
    List.Sublist [frameA, frameB, frameC] [frameA, frameBadA, frameB, frameC] ∧
    List.length [frameA, frameB, frameC] ≤ 4 := by
  refine ⟨by decide, ?_, ?_, ?_⟩
  · exact (c8_record_invariant 4 [frameA, frameBadA, frameB, frameC] [frameA, frameB, frameC]
      (by decide)).1 frameA (by decide)
  · exact (c8_record_invariant 4 [frameA, frameBadA, frameB, frameC] [frameA, frameB, frameC]
      (by decide)).2.2
  · exact (c8_record_invariant 4 [frameA, frameBadA, frameB, frameC] [frameA, frameB, frameC]
      (by decide)).2.1

/-- C1 (code bug): with a log file configured and a non-empty validated
record of four well-formed frames, the write step does not append to the
day-stamped file: `expanduser(splitext(logfn))` raises `TypeError`
(argument order of the two calls is swapped), so `readbuf` ends with an
uncaught exception, an empty effect trace and no file ever opened. -/
theorem c1_write_step_raises :
    readLines 4 [Except.ok frameA, Except.ok frameA, Except.ok frameA, Except.ok frameA] =
      Except.ok [frameA, frameA, frameA, frameA] ∧
    readbufM d0 (some gpsLog) 4 false d0
      [Except.ok frameA, Except.ok frameA, Except.ok frameA, Except.ok frameA] =
      ([], some PyErr.typeError, d0) := by decide

/-- C5 (code bug): with a log file configured and an empty validated
record (all four candidate lines failed validation), the write step is
not a clean no-op: the same `TypeError` from `expanduser(splitext(logfn))`
is raised before `open` — and even with the intended call order,
`open(logfn, "a")` would create the file. -/
theorem c5_empty_record_raises :
    readLines 4 [Except.ok frameBadA, Except.ok frameBadA, Except.ok frameBadA,
      Except.ok frameBadA] = Except.ok [] ∧
    readbufM d0 (some gpsLog) 4 false d0
      [Except.ok frameBadA, Except.ok frameBadA, Except.ok frameBadA, Except.ok frameBadA] =
      ([], some PyErr.typeError, d0) := by decide

/-- Distinct effect constructors compare unequal. -/
theorem beq_printNum_close (n : Nat) : (Eff.printNum n == Eff.closePort) = false := rfl

/-- Distinct effect constructors compare unequal. -/
theorem beq_printStr_close (s : List Char) : (Eff.printStr s == Eff.closePort) = false := rfl

/-- Distinct effect constructors compare unequal. -/
theorem beq_waitHalf_close : (Eff.waitHalf == Eff.closePort) = false := rfl

/-- Distinct effect constructors compare unequal. -/
theorem beq_waitPeriod_close (t : Rat) : (Eff.waitPeriod t == Eff.closePort) = false := rfl

/-- Distinct effect constructors compare unequal. -/
theorem beq_flush_close : (Eff.flushInput == Eff.closePort) = false := rfl

/-- A `readbuf` call never emits a close effect. -/
theorem count_close_readbuf (lastday : Date) (logfn : Option (List Char)) (nline : Nat)
    (verbose : Bool) (today : Date) (lines : List (Except Unit (List Char))) :
    ((readbufM lastday logfn nline verbose today lines).1).count Eff.closePort = 0 := by
  unfold readbufM
  split
  · rfl
  · split
    · by_cases hv : verbose <;>
        simp [hv, List.count_cons, beq_printStr_close]
    · by_cases hv : verbose <;>
        simp [hv, List.count_cons, List.count_append, beq_printStr_close]

/-- C6 (counterexample): the claim that the worker closes the transport
exactly once before exiting is false: a worker that observes the stop
flag at its first loop-head check exits with an empty effect trace — in
particular without any close of the serial port. -/
theorem c6_close_cex :
    portthreadRun d0 none 4 false 500 10 [⟨true, 0, d0, []⟩] = ⟨[], none, []⟩ := by decide

/-- C6 (amended): `portthread` contains no close call at all: on any
schedule, whether it exits by observing the stop flag, by exhausting the
schedule, or by an escaping exception, its effect trace contains zero
close-port effects; the serial port is released only by process
teardown. -/
theorem c6_never_closes (lastday : Date) (logfn : Option (List Char)) (nline : Nat)
    (verbose : Bool) (bytesWait : Nat) (period : Rat) (envs : List CycleEnv) :
    ((portthreadRun lastday logfn nline verbose bytesWait period envs).trace).count
      Eff.closePort = 0 := by
  induction envs with
  | nil => rfl
  | cons e rest ih =>
    simp only [portthreadRun]
    split
    · rfl
    · split
      · have hpr : ((if verbose = true then [Eff.printNum e.inWaiting] else []) :
            List Eff).count Eff.closePort = 0 := by
          split <;> simp [List.count_cons, beq_printNum_close]
        simp [List.count_append, List.count_cons, beq_waitHalf_close, hpr, ih]
      · split
        · rename_i effs er day heq
          have hc := count_close_readbuf lastday logfn nline verbose e.today e.lines
          rw [heq] at hc
          exact hc
        · rename_i effs day heq
          have hc := count_close_readbuf lastday logfn nline verbose e.today e.lines
          rw [heq] at hc
          simp [List.count_append, List.count_cons, beq_waitPeriod_close,
            beq_flush_close, ih, hc]

/-- The day value `readbuf` computes is its rollover selection. -/
theorem readbufM_day (lastday : Date) (logfn : Option (List Char)) (nline : Nat)
    (verbose : Bool) (today : Date) (lines : List (Except Unit (List Char))) :
    (readbufM lastday logfn nline verbose today lines).2.2 = readbufDay lastday today := by
  unfold readbufM
  split
  · rfl
  · split <;> rfl

/-- C7 (counterexample): the claim that the flush precedes the
compensating sleep and that the sleep is clamped at zero is false: after
a drain cycle with period 1 the worker first performs
`stop.wait(period - 2.5)` with the negative argument -3/2 and only then
flushes the input buffer. -/
theorem c7_order_cex :
    (portthreadRun d0 none 4 false 500 1 [⟨false, 500, d0,
        [Except.ok frameBadA, Except.ok frameBadA, Except.ok frameBadA,
          Except.ok frameBadA]⟩]).trace =
      [Eff.printStr [], Eff.waitPeriod (1 - 5 / 2), Eff.flushInput] ∧
    ((1 : Rat) - 5 / 2) < 0 := by
  constructor
  · rfl
  · norm_num

/-- C7 (amended): at every completed drain cycle the worker appends to
its trace, after the `readbuf` effects, first the interruptible wait of
`period - 2.5` seconds (the raw difference, not clamped at zero; the wait
primitive returns immediately when it is negative) and only then the
input-buffer flush. -/
theorem c7_sleep_then_flush (lastday : Date) (logfn : Option (List Char)) (nline : Nat)
    (verbose : Bool) (bytesWait : Nat) (period : Rat) (e : CycleEnv) (rest : List CycleEnv)
    (h1 : e.stopSet = false) (h2 : bytesWait ≤ e.inWaiting)
    (h3 : (readbufM lastday logfn nline verbose e.today e.lines).2.1 = none) :
    (portthreadRun lastday logfn nline verbose bytesWait period (e :: rest)).trace =
      (readbufM lastday logfn nline verbose e.today e.lines).1 ++
        Eff.waitPeriod (period - 5 / 2) :: Eff.flushInput ::
          (portthreadRun lastday logfn nline verbose bytesWait period rest).trace := by
  rcases hrb : readbufM lastday logfn nline verbose e.today e.lines with ⟨effs, err, day⟩
  rw [hrb] at h3
  have herr : err = none := h3
  subst herr
  simp only [portthreadRun, h1]
  rw [if_neg (show ¬ (false = true) from by decide),
    if_neg (show ¬ e.inWaiting < bytesWait from by omega), hrb]

/-- C7 (witness): a concrete completed cycle with period 10 shows the
wait-then-flush tail. -/
theorem c7_sleep_then_flush_witness :
    (portthreadRun d0 none 4 false 500 10
        [⟨false, 500, d0, [Except.ok frameA, Except.ok frameA, Except.ok frameA,
          Except.ok frameA]⟩]).trace =
      (readbufM d0 none 4 false d0 [Except.ok frameA, Except.ok frameA, Except.ok frameA,
        Except.ok frameA]).1 ++
        Eff.waitPeriod (10 - 5 / 2) :: Eff.flushInput ::
          (portthreadRun d0 none 4 false 500 10 []).trace :=
  c7_sleep_then_flush d0 none 4 false 500 10
    ⟨false, 500, d0, [Except.ok frameA, Except.ok frameA, Except.ok frameA, Except.ok frameA]⟩
    [] (by decide) (by decide) (by decide)

/-- C10 (confirmed): although `readbuf`'s reassignment of `lastday` never
reaches the caller — the worker hands the unchanged process-start day to
every cycle — each cycle recomputes the rollover from the current date,
so the day stamped into that cycle's log-file-name expression is the
cycle's current date when it is strictly later than the start day and
the start day otherwise. -/
theorem c10_logday_stamps (start : Date) (stem ext : List Char) (logfn : Option (List Char))
    (nline : Nat) (verbose : Bool) (bytesWait : Nat) (period : Rat) (envs : List CycleEnv) :
    ((portthreadRun start logfn nline verbose bytesWait period envs).stamps).all
      (fun p => decide (logname stem ext p.2 =
        logname stem ext (if Date.key start < Date.key p.1 then p.1 else start))) = true := by
  induction envs with
  | nil => rfl
  | cons e rest ih =>
    simp only [portthreadRun]
    split
    · rfl
    · split
      · exact ih
      · split
        · rename_i effs er day heq
          have h0 := readbufM_day start logfn nline verbose e.today e.lines
          rw [heq] at h0
          have hd : day = readbufDay start e.today := h0
          subst hd
          simp [readbufDay]
        · rename_i effs day heq
          have h0 := readbufM_day start logfn nline verbose e.today e.lines
          rw [heq] at h0
          have hd : day = readbufDay start e.today := h0
          subst hd
          simp [readbufDay, ih]

